import Mathlib

/-!
Verification of the `float-classify` library (`src/lib.rs`).

The library classifies a 64-bit float into one of five categories
(`CatFloat` in the source).  We embed the Rust code shallowly:

* An `f64` value is modelled by `F64`: NaN, a signed infinity, negative
  zero, or a finite value carried as an exact rational (`F64.fin q`;
  `F64.fin 0` is positive zero, `F64.negZero` is `-0.0`).
* The only arithmetic the classifier performs on finite doubles is
  `trunc` (round toward zero), `fract = self - self.trunc()` (this is the
  documented definition of Rust's `f64::fract`) and, for the
  reconstruction property, one addition `int_part + fract_part`.
  Each of these operations is *exact* on IEEE-754 binary64: if
  `v = m * 2^e` is finite then `trunc v` and `v - trunc v` are both
  exactly representable, and IEEE arithmetic returns the exact result
  whenever it is representable; likewise `trunc v + (v - trunc v) = v`
  is representable.  Hence modelling a finite double by its exact
  rational value, with these operations computed exactly over `ℚ`
  (including the IEEE signed-zero rules for results that are zero),
  is faithful for everything the classifier does.
-/

/-- Model of a 64-bit IEEE-754 value as used by the classifier:
NaN, a signed infinity, negative zero, or a finite value given by its
exact rational value (`fin 0` is positive zero). -/
inductive F64 where
  | nan : F64
  | inf (neg : Bool) : F64
  | negZero : F64
  | fin (q : ℚ) : F64
deriving DecidableEq, Repr

namespace F64

/-- Rust `f64::is_infinite`. -/
def is_infinite : F64 → Bool
  | inf _ => true
  | _ => false

/-- Rust `f64::is_nan`. -/
def is_nan : F64 → Bool
  | nan => true
  | _ => false

/-- Rust `num::traits::Zero::is_zero` for `f64`, i.e. `self == 0.0`
(true for both `0.0` and `-0.0`). -/
def is_zero : F64 → Bool
  | negZero => true
  | fin q => q = 0
  | _ => false

/-- Finite (neither NaN nor infinite). -/
def isFinite : F64 → Bool
  | negZero => true
  | fin _ => true
  | _ => false

/-- The rational value of a finite `F64` (0 for NaN/infinities). -/
def val : F64 → ℚ
  | fin q => q
  | _ => 0

/-- The IEEE sign bit: true for negative values, `-0.0` and `-∞`. -/
def isSignNeg : F64 → Bool
  | nan => false
  | inf s => s
  | negZero => true
  | fin q => q < 0

/-- Truncation of a rational toward zero. -/
def ratTrunc (q : ℚ) : ℤ :=
  if q < 0 then -⌊-q⌋ else ⌊q⌋

/-- Exact rational addition, written in normalized `mkRat` form so that it
kernel-reduces on concrete inputs (`Rat.add` is `@[irreducible]`).
`qadd_eq_add` below proves it equal to `· + ·`. -/
def qadd (a b : ℚ) : ℚ :=
  mkRat (a.num * b.den + b.num * a.den) (a.den * b.den)

/-- Exact rational subtraction in normalized `mkRat` form;
`qsub_eq_sub` below proves it equal to `· - ·`. -/
def qsub (a b : ℚ) : ℚ :=
  mkRat (a.num * b.den - b.num * a.den) (a.den * b.den)

/-- Rust `f64::trunc`: round toward zero.  NaN and infinities are returned
unchanged; a negative value truncating to zero yields `-0.0`. -/
def trunc : F64 → F64
  | nan => nan
  | inf s => inf s
  | negZero => negZero
  | fin q => if ratTrunc q = 0 ∧ q < 0 then negZero else fin (ratTrunc q)

/-- IEEE-754 binary64 subtraction, restricted to the exact cases the
classifier exercises (the exact difference of the finite operands it is
applied to is always representable, so no rounding is modelled).  The
signed-zero rules for zero results follow IEEE-754 round-to-nearest:
a zero result is `-0.0` only for `(-0.0) - (+0.0)`. -/
def fsub : F64 → F64 → F64
  | nan, _ => nan
  | _, nan => nan
  | inf s, inf t => if s = t then nan else inf s
  | inf s, negZero => inf s
  | inf s, fin _ => inf s
  | negZero, inf t => inf (!t)
  | fin _, inf t => inf (!t)
  | negZero, negZero => fin 0
  | negZero, fin q => if q = 0 then negZero else fin (-q)
  | fin q, negZero => fin q
  | fin a, fin b => if qsub a b = 0 then fin 0 else fin (qsub a b)

/-- IEEE-754 binary64 addition, restricted to the exact cases the
reconstruction property exercises.  A zero result is `-0.0` only for
`(-0.0) + (-0.0)`. -/
def fadd : F64 → F64 → F64
  | nan, _ => nan
  | _, nan => nan
  | inf s, inf t => if s = t then inf s else nan
  | inf s, negZero => inf s
  | inf s, fin _ => inf s
  | negZero, inf t => inf t
  | fin _, inf t => inf t
  | negZero, negZero => negZero
  | negZero, fin q => fin q
  | fin q, negZero => fin q
  | fin a, fin b => fin (qadd a b)

/-- Rust `f64::fract`, documented as `self - self.trunc()`. -/
def fract (v : F64) : F64 :=
  fsub v (trunc v)

end F64

/-- The `CatFloat` enum of the source: the five classification results. -/
inductive CatFloat where
  | integerLike (x : F64)
  | fractionLike (x : F64)
  | integerAndFractionalPart (i : F64) (f : F64)
  | nan
  | infinity
deriving DecidableEq, Repr

namespace CatFloat

/-- Rust `CatFloat::is_integer_like`. -/
def is_integer_like : CatFloat → Bool
  | integerLike _ => true
  | _ => false

/-- Rust `CatFloat::is_fraction_like`. -/
def is_fraction_like : CatFloat → Bool
  | fractionLike _ => true
  | _ => false

/-- Rust `CatFloat::is_integer_and_fractional_part`. -/
def is_integer_and_fractional_part : CatFloat → Bool
  | integerAndFractionalPart _ _ => true
  | _ => false

/-- Rust `CatFloat::is_infinity`. -/
def is_infinity : CatFloat → Bool
  | infinity => true
  | _ => false

/-- Rust `CatFloat::is_nan`. -/
def is_nan : CatFloat → Bool
  | nan => true
  | _ => false

end CatFloat

/-- IEEE-754 `==` on `f64` payloads: NaN is not equal to anything
(itself included), `0.0 == -0.0`, otherwise value equality.  Used by
the derived `PartialEq` on `CatFloat` for payload fields. -/
def F64.feq : F64 → F64 → Bool
  | F64.nan, _ => false
  | _, F64.nan => false
  | F64.inf s, F64.inf t => s = t
  | F64.inf _, _ => false
  | _, F64.inf _ => false
  | F64.negZero, F64.negZero => true
  | F64.negZero, F64.fin q => q = 0
  | F64.fin q, F64.negZero => q = 0
  | F64.fin a, F64.fin b => a = b

/-- The `#[derive(PartialEq)]` equality on `CatFloat`: structural on the
variant tag, IEEE `==` on `f64` payload fields. -/
def CatFloat.catEq : CatFloat → CatFloat → Bool
  | CatFloat.integerLike a, CatFloat.integerLike b => a.feq b
  | CatFloat.fractionLike a, CatFloat.fractionLike b => a.feq b
  | CatFloat.integerAndFractionalPart i1 f1, CatFloat.integerAndFractionalPart i2 f2 =>
      i1.feq i2 && f1.feq f2
  | CatFloat.nan, CatFloat.nan => true
  | CatFloat.infinity, CatFloat.infinity => true
  | _, _ => false

/-- The classifier `<f64 as Category>::category` from `src/lib.rs`, lines 78–96. -/
def F64.category (v : F64) : CatFloat :=
  if v.is_infinite then CatFloat.infinity
  else if v.is_nan then CatFloat.nan
  else
    let int_part : F64 := v.trunc
    let fract_part : F64 := v.fract
    if fract_part.is_zero then CatFloat.integerLike int_part
    else if int_part.is_zero then CatFloat.fractionLike fract_part
    else CatFloat.integerAndFractionalPart int_part fract_part

/-- The decision procedure of spec §4.1, written from its words: infinity
check, then NaN check, then `int_part` = truncation toward zero,
`fract_part` = value minus `int_part`, then the three arithmetic branches
in the stated order. -/
def classify_spec (v : F64) : CatFloat :=
  if v.is_infinite then CatFloat.infinity
  else if v.is_nan then CatFloat.nan
  else
    let int_part : F64 := v.trunc
    let fract_part : F64 := F64.fsub v int_part
    if fract_part.is_zero then CatFloat.integerLike int_part
    else if int_part.is_zero then CatFloat.fractionLike fract_part
    else CatFloat.integerAndFractionalPart int_part fract_part

/-! ## Basic lemmas about the rational-arithmetic layer -/

namespace F64

theorem qadd_eq_add (a b : ℚ) : qadd a b = a + b :=
  (Rat.add_def' a b).symm

theorem qsub_eq_sub (a b : ℚ) : qsub a b = a - b :=
  (Rat.sub_def' a b).symm

theorem ratTrunc_eq_zero_iff {q : ℚ} : ratTrunc q = 0 ↔ |q| < 1 := by
  unfold ratTrunc
  split_ifs with h
  · rw [neg_eq_zero, Int.floor_eq_zero_iff, Set.mem_Ico, abs_of_neg h]
    constructor
    · rintro ⟨-, h1⟩; exact h1
    · intro h1; exact ⟨le_of_lt (neg_pos.mpr h), h1⟩
  · push_neg at h
    rw [Int.floor_eq_zero_iff, Set.mem_Ico, abs_of_nonneg h]
    constructor
    · rintro ⟨-, h1⟩; exact h1
    · intro h1; exact ⟨h, h1⟩

theorem ratTrunc_fract_bounds (q : ℚ) : |q - (ratTrunc q : ℚ)| < 1 := by
  unfold ratTrunc
  split_ifs with h
  · push_cast
    rw [sub_neg_eq_add, abs_lt]
    have h1 := Int.floor_le (-q)
    have h2 := Int.lt_floor_add_one (-q)
    constructor <;> linarith
  · rw [abs_lt]
    have h1 := Int.floor_le q
    have h2 := Int.lt_floor_add_one q
    constructor <;> linarith

theorem ratTrunc_nonneg_of_nonneg {q : ℚ} (h : 0 ≤ q) : 0 ≤ ratTrunc q := by
  unfold ratTrunc
  rw [if_neg (not_lt.mpr h)]
  exact Int.floor_nonneg.mpr h

theorem ratTrunc_nonpos_of_nonpos {q : ℚ} (h : q ≤ 0) : ratTrunc q ≤ 0 := by
  unfold ratTrunc
  split_ifs with h'
  · simp only [neg_nonpos]
    exact Int.floor_nonneg.mpr (by linarith)
  · have hq : q = 0 := le_antisymm h (not_lt.mp h')
    simp [hq]

theorem fract_nonneg_of_nonneg {q : ℚ} (h : 0 ≤ q) : 0 ≤ q - (ratTrunc q : ℚ) := by
  unfold ratTrunc
  rw [if_neg (not_lt.mpr h)]
  have := Int.floor_le q
  linarith

theorem fract_nonpos_of_nonpos {q : ℚ} (h : q ≤ 0) : q - (ratTrunc q : ℚ) ≤ 0 := by
  unfold ratTrunc
  split_ifs with h'
  · push_cast
    have := Int.floor_le (-q)
    linarith
  · have hq : q = 0 := le_antisymm h (not_lt.mp h')
    simp [hq]

end F64

/-! ## Characterization of the classifier -/

namespace F64

theorem category_fin (q : ℚ) :
    F64.category (F64.fin q) =
      if q - (ratTrunc q : ℚ) = 0 then
        CatFloat.integerLike (F64.fin ((ratTrunc q : ℤ) : ℚ))
      else if ratTrunc q = 0 then CatFloat.fractionLike (F64.fin q)
      else
        CatFloat.integerAndFractionalPart (F64.fin ((ratTrunc q : ℤ) : ℚ))
          (F64.fin (q - (ratTrunc q : ℚ))) := by
  by_cases hz : ratTrunc q = 0 ∧ q < 0
  · obtain ⟨ht, hq⟩ := hz
    have hqne : q ≠ 0 := ne_of_lt hq
    simp [F64.category, F64.is_infinite, F64.is_nan, F64.fract, F64.trunc, F64.fsub,
          F64.is_zero, ht, hq, hqne]
  · have htr : F64.trunc (F64.fin q) = F64.fin ((ratTrunc q : ℤ) : ℚ) := by
      simp [F64.trunc, hz]
    by_cases hf : q - (ratTrunc q : ℚ) = 0
    · simp [F64.category, F64.is_infinite, F64.is_nan, F64.fract, htr, F64.fsub,
            qsub_eq_sub, hf, F64.is_zero]
    · by_cases ht : ratTrunc q = 0
      · have hq0 : ¬ q < 0 := fun hq => hz ⟨ht, hq⟩
        have hqne : q ≠ 0 := by
          intro h0
          exact hf (by rw [h0]; simp [ratTrunc])
        simp [F64.category, F64.is_infinite, F64.is_nan, F64.fract, htr, F64.fsub,
              qsub_eq_sub, hf, F64.is_zero, ht, hqne]
      · have htc : ((ratTrunc q : ℤ) : ℚ) ≠ 0 := by exact_mod_cast ht
        simp [F64.category, F64.is_infinite, F64.is_nan, F64.fract, htr, F64.fsub,
              qsub_eq_sub, hf, F64.is_zero, ht, htc]

theorem category_negZero : F64.category F64.negZero = CatFloat.integerLike F64.negZero := rfl

theorem category_nan_input : F64.category F64.nan = CatFloat.nan := rfl

theorem category_inf (s : Bool) : F64.category (F64.inf s) = CatFloat.infinity := rfl

/-- Inversion: only a finite, non-integer value with nonzero integer part
produces `IntegerAndFractionalPart`, and the payloads are its truncation
and exact fractional remainder. -/
theorem intAndFrac_inv {v i f : F64}
    (h : F64.category v = CatFloat.integerAndFractionalPart i f) :
    ∃ q : ℚ, v = F64.fin q ∧ i = F64.fin ((ratTrunc q : ℤ) : ℚ) ∧
      f = F64.fin (q - (ratTrunc q : ℚ)) ∧ ratTrunc q ≠ 0 ∧
      q - (ratTrunc q : ℚ) ≠ 0 := by
  cases v with
  | nan => exact absurd h (by simp [category_nan_input])
  | inf s => exact absurd h (by simp [category_inf])
  | negZero => exact absurd h (by simp [category_negZero])
  | fin q =>
    rw [category_fin] at h
    by_cases h1 : q - (ratTrunc q : ℚ) = 0
    · rw [if_pos h1] at h
      exact absurd h (by simp)
    · rw [if_neg h1] at h
      by_cases h2 : ratTrunc q = 0
      · rw [if_pos h2] at h
        exact absurd h (by simp)
      · rw [if_neg h2] at h
        rw [CatFloat.integerAndFractionalPart.injEq] at h
        exact ⟨q, rfl, h.1.symm, h.2.symm, h2, h1⟩

/-- Inversion: only a finite value with zero truncation and nonzero
fractional remainder produces `FractionLike`, with the value itself as
payload. -/
theorem fractionLike_inv {v x : F64}
    (h : F64.category v = CatFloat.fractionLike x) :
    ∃ q : ℚ, v = F64.fin q ∧ x = F64.fin q ∧ ratTrunc q = 0 ∧ q ≠ 0 := by
  cases v with
  | nan => exact absurd h (by simp [category_nan_input])
  | inf s => exact absurd h (by simp [category_inf])
  | negZero => exact absurd h (by simp [category_negZero])
  | fin q =>
    rw [category_fin] at h
    by_cases h1 : q - (ratTrunc q : ℚ) = 0
    · rw [if_pos h1] at h
      exact absurd h (by simp)
    · rw [if_neg h1] at h
      by_cases h2 : ratTrunc q = 0
      · rw [if_pos h2] at h
        rw [CatFloat.fractionLike.injEq] at h
        refine ⟨q, rfl, h.symm, h2, ?_⟩
        intro h0
        apply h1
        rw [h0]
        simp [ratTrunc]
      · rw [if_neg h2] at h
        exact absurd h (by simp)

/-- Inversion for `IntegerLike`: the payload is the truncation of a finite
input whose fractional remainder is zero (or the input itself for `±0.0`). -/
theorem integerLike_inv {v x : F64}
    (h : F64.category v = CatFloat.integerLike x) :
    v = F64.negZero ∧ x = F64.negZero ∨
      ∃ q : ℚ, v = F64.fin q ∧ x = F64.fin ((ratTrunc q : ℤ) : ℚ) ∧
        q - (ratTrunc q : ℚ) = 0 := by
  cases v with
  | nan => exact absurd h (by simp [category_nan_input])
  | inf s => exact absurd h (by simp [category_inf])
  | negZero =>
    rw [category_negZero, CatFloat.integerLike.injEq] at h
    exact Or.inl ⟨rfl, h.symm⟩
  | fin q =>
    rw [category_fin] at h
    by_cases h1 : q - (ratTrunc q : ℚ) = 0
    · rw [if_pos h1] at h
      rw [CatFloat.integerLike.injEq] at h
      exact Or.inr ⟨q, rfl, h.symm, h1⟩
    · rw [if_neg h1] at h
      by_cases h2 : ratTrunc q = 0
      · rw [if_pos h2] at h
        exact absurd h (by simp)
      · rw [if_neg h2] at h
        exact absurd h (by simp)

end F64

namespace F64

theorem ratTrunc_cast_neg_iff {q : ℚ} (ht : ratTrunc q ≠ 0) :
    ((ratTrunc q : ℤ) : ℚ) < 0 ↔ q < 0 := by
  constructor
  · intro h
    by_contra hq
    push_neg at hq
    have := ratTrunc_nonneg_of_nonneg hq
    have : (0 : ℚ) ≤ ((ratTrunc q : ℤ) : ℚ) := by exact_mod_cast this
    linarith
  · intro h
    have h1 : ratTrunc q ≤ 0 := ratTrunc_nonpos_of_nonpos (le_of_lt h)
    have h2 : ratTrunc q < 0 := lt_of_le_of_ne h1 ht
    exact_mod_cast h2

theorem fract_neg_iff {q : ℚ} (hf : q - (ratTrunc q : ℚ) ≠ 0) :
    q - (ratTrunc q : ℚ) < 0 ↔ q < 0 := by
  constructor
  · intro h
    by_contra hq
    push_neg at hq
    have := fract_nonneg_of_nonneg hq
    linarith
  · intro h
    exact lt_of_le_of_ne (fract_nonpos_of_nonpos (le_of_lt h)) hf

end F64

/-! ## The claims -/

/-- Claim C1: for every 64-bit floating-point input `v`, `category v` follows the
spec's decision procedure in order: infinity check, NaN check, truncation,
then the `fract_part = 0` / `int_part = 0` / mixed branches. -/
theorem category_eq_classify_spec (v : F64) : F64.category v = classify_spec v := rfl

/-- Claim C2: `category` is a total, pure function: for every representable input
(finite, NaN, infinities, signed zeros, subnormals — all covered by `F64`)
it returns exactly one `CatFloat` variant and never fails. -/
theorem category_total (v : F64) :
    (∃! c : CatFloat, F64.category v = c) ∧
    ((∃ x, F64.category v = CatFloat.integerLike x) ∨
      (∃ x, F64.category v = CatFloat.fractionLike x) ∨
      (∃ i f, F64.category v = CatFloat.integerAndFractionalPart i f) ∨
      F64.category v = CatFloat.nan ∨ F64.category v = CatFloat.infinity) := by
  refine ⟨⟨F64.category v, rfl, fun y hy => hy.symm⟩, ?_⟩
  cases h : F64.category v with
  | integerLike x => exact Or.inl ⟨x, rfl⟩
  | fractionLike x => exact Or.inr (Or.inl ⟨x, rfl⟩)
  | integerAndFractionalPart i f => exact Or.inr (Or.inr (Or.inl ⟨i, f, rfl⟩))
  | nan => exact Or.inr (Or.inr (Or.inr (Or.inl rfl)))
  | infinity => exact Or.inr (Or.inr (Or.inr (Or.inr rfl)))

/-- Witness for C2 at the concrete input NaN. -/
theorem category_total_witness :
    (∃! c : CatFloat, F64.category F64.nan = c) ∧
    ((∃ x, F64.category F64.nan = CatFloat.integerLike x) ∨
      (∃ x, F64.category F64.nan = CatFloat.fractionLike x) ∨
      (∃ i f, F64.category F64.nan = CatFloat.integerAndFractionalPart i f) ∨
      F64.category F64.nan = CatFloat.nan ∨ F64.category F64.nan = CatFloat.infinity) :=
  category_total F64.nan

/-- Claim C3: whenever `category v = IntegerAndFractionalPart i f`, `i` is the
truncation of `v` toward zero, `f` is the remaining fractional part
(`v.fract`), `i + f` reconstructs `v` exactly, and both `i` and `f`
carry `v`'s sign. -/
theorem intAndFrac_reconstruction (v i f : F64)
    (h : F64.category v = CatFloat.integerAndFractionalPart i f) :
    i = v.trunc ∧ f = v.fract ∧ F64.fadd i f = v ∧
      i.isSignNeg = v.isSignNeg ∧ f.isSignNeg = v.isSignNeg := by
  obtain ⟨q, rfl, rfl, rfl, ht, hf⟩ := F64.intAndFrac_inv h
  have htcond : ¬(F64.ratTrunc q = 0 ∧ q < 0) := fun hc => ht hc.1
  refine ⟨?_, ?_, ?_, ?_, ?_⟩
  · simp [F64.trunc, htcond]
  · simp [F64.fract, F64.trunc, htcond, F64.fsub, F64.qsub_eq_sub, hf]
  · simp only [F64.fadd, F64.qadd_eq_add]
    norm_num
  · simp only [F64.isSignNeg]
    rw [decide_eq_decide]
    exact F64.ratTrunc_cast_neg_iff ht
  · simp only [F64.isSignNeg]
    rw [decide_eq_decide]
    exact F64.fract_neg_iff hf

/-- Witness for C3 at the concrete input 1.5 = 1 + 1/2. -/
theorem intAndFrac_reconstruction_witness :
    F64.category (F64.fin (Rat.divInt 3 2)) =
      CatFloat.integerAndFractionalPart (F64.fin 1) (F64.fin (Rat.divInt 1 2)) ∧
    (F64.fin 1 = (F64.fin (Rat.divInt 3 2)).trunc ∧
      F64.fin (Rat.divInt 1 2) = (F64.fin (Rat.divInt 3 2)).fract ∧
      F64.fadd (F64.fin 1) (F64.fin (Rat.divInt 1 2)) = F64.fin (Rat.divInt 3 2) ∧
      (F64.fin 1).isSignNeg = (F64.fin (Rat.divInt 3 2)).isSignNeg ∧
      (F64.fin (Rat.divInt 1 2)).isSignNeg = (F64.fin (Rat.divInt 3 2)).isSignNeg) :=
  ⟨by decide,
    intAndFrac_reconstruction (F64.fin (Rat.divInt 3 2)) (F64.fin 1)
      (F64.fin (Rat.divInt 1 2)) (by decide)⟩

/-- Claim C4: no variant produced by `category` carries a NaN or infinite payload,
and NaN / infinite inputs are captured exclusively by the payload-free
`Nan` and `Infinity` variants. -/
theorem payloads_not_nan_or_infinite (v : F64) :
    (∀ x, F64.category v = CatFloat.integerLike x →
      x.isFinite = true ∧ x.is_nan = false ∧ x.is_infinite = false) ∧
    (∀ x, F64.category v = CatFloat.fractionLike x →
      x.isFinite = true ∧ x.is_nan = false ∧ x.is_infinite = false) ∧
    (∀ i f, F64.category v = CatFloat.integerAndFractionalPart i f →
      (i.isFinite = true ∧ i.is_nan = false ∧ i.is_infinite = false) ∧
        (f.isFinite = true ∧ f.is_nan = false ∧ f.is_infinite = false)) ∧
    (v.is_nan = true → F64.category v = CatFloat.nan) ∧
    (v.is_infinite = true → F64.category v = CatFloat.infinity) := by
  refine ⟨?_, ?_, ?_, ?_, ?_⟩
  · intro x h
    rcases F64.integerLike_inv h with ⟨-, rfl⟩ | ⟨q, -, rfl, -⟩ <;> exact ⟨rfl, rfl, rfl⟩
  · intro x h
    obtain ⟨q, -, rfl, -, -⟩ := F64.fractionLike_inv h
    exact ⟨rfl, rfl, rfl⟩
  · intro i f h
    obtain ⟨q, -, rfl, rfl, -, -⟩ := F64.intAndFrac_inv h
    exact ⟨⟨rfl, rfl, rfl⟩, ⟨rfl, rfl, rfl⟩⟩
  · intro h
    cases v <;> simp_all [F64.is_nan, F64.category_nan_input]
  · intro h
    cases v <;> simp_all [F64.is_infinite, F64.category_inf]

/-- Witness for C4: the payloads produced for 1.5 are finite and not NaN. -/
theorem payloads_not_nan_or_infinite_witness :
    ((F64.fin 1).isFinite = true ∧ (F64.fin 1).is_nan = false ∧
      (F64.fin 1).is_infinite = false) ∧
    ((F64.fin (Rat.divInt 1 2)).isFinite = true ∧
      (F64.fin (Rat.divInt 1 2)).is_nan = false ∧
      (F64.fin (Rat.divInt 1 2)).is_infinite = false) :=
  (payloads_not_nan_or_infinite (F64.fin (Rat.divInt 3 2))).2.2.1
    (F64.fin 1) (F64.fin (Rat.divInt 1 2)) (by decide)

/-- Claim C5: `0.0` classifies as `IntegerLike(0.0)` and `-0.0` as `IntegerLike`
with a zero payload (the sign following the signed-zero semantics of
truncation, which keeps `-0.0`); neither is ever `FractionLike`. -/
theorem zero_canonicalization :
    F64.category (F64.fin 0) = CatFloat.integerLike (F64.fin 0) ∧
    F64.category F64.negZero = CatFloat.integerLike F64.negZero ∧
    (F64.negZero.is_zero = true) ∧
    (F64.category (F64.fin 0)).is_fraction_like = false ∧
    (F64.category F64.negZero).is_fraction_like = false := by decide

/-- Claim C6: `category` preserves the sign of its input in the payload:
`-100.0` yields `IntegerLike(-100.0)` (not `IntegerLike(100.0)`), and any
input strictly between `-1` and `0` — in particular the 64-bit float
written `-0.002`, whose exact value is such a rational — yields
`FractionLike` of that same negative value. -/
theorem sign_preservation :
    F64.category (F64.fin (-100)) = CatFloat.integerLike (F64.fin (-100)) ∧
    ∀ q : ℚ, -1 < q → q < 0 →
      F64.category (F64.fin q) = CatFloat.fractionLike (F64.fin q) := by
  constructor
  · decide
  · intro q hq1 hq0
    have ht : F64.ratTrunc q = 0 :=
      F64.ratTrunc_eq_zero_iff.mpr (abs_lt.mpr ⟨hq1, lt_trans hq0 one_pos⟩)
    rw [F64.category_fin, ht]
    simp [ne_of_lt hq0]

/-- Witness for C6 at the concrete input -1/500 = -0.002. -/
theorem sign_preservation_witness :
    ((-1 : ℚ) < Rat.divInt (-1) 500 ∧ Rat.divInt (-1) 500 < 0) ∧
    F64.category (F64.fin (Rat.divInt (-1) 500)) =
      CatFloat.fractionLike (F64.fin (Rat.divInt (-1) 500)) :=
  ⟨⟨by decide, by decide⟩,
    sign_preservation.2 (Rat.divInt (-1) 500) (by decide) (by decide)⟩

/-- Claim C7: both payloads of `IntegerAndFractionalPart` are nonzero. -/
theorem intAndFrac_payloads_nonzero (v i f : F64)
    (h : F64.category v = CatFloat.integerAndFractionalPart i f) :
    i.is_zero = false ∧ f.is_zero = false := by
  obtain ⟨q, rfl, rfl, rfl, ht, hf⟩ := F64.intAndFrac_inv h
  have htc : ((F64.ratTrunc q : ℤ) : ℚ) ≠ 0 := by exact_mod_cast ht
  simp [F64.is_zero, htc, hf]

/-- Witness for C7 at the concrete input 1.5. -/
theorem intAndFrac_payloads_nonzero_witness :
    F64.category (F64.fin (Rat.divInt 3 2)) =
      CatFloat.integerAndFractionalPart (F64.fin 1) (F64.fin (Rat.divInt 1 2)) ∧
    ((F64.fin 1).is_zero = false ∧ (F64.fin (Rat.divInt 1 2)).is_zero = false) :=
  ⟨by decide,
    intAndFrac_payloads_nonzero (F64.fin (Rat.divInt 3 2)) (F64.fin 1)
      (F64.fin (Rat.divInt 1 2)) (by decide)⟩

/-- Claim C8: for every value produced by `category`, exactly one of the five
predicates `is_integer_like`, `is_fraction_like`,
`is_integer_and_fractional_part`, `is_nan`, `is_infinity` returns true. -/
theorem predicates_mutually_exclusive (v : F64) :
    (F64.category v).is_integer_like.toNat + (F64.category v).is_fraction_like.toNat +
      (F64.category v).is_integer_and_fractional_part.toNat +
      (F64.category v).is_nan.toNat + (F64.category v).is_infinity.toNat = 1 := by
  cases h : F64.category v <;> rfl

/-- Claim C9: the derived equality on `CatFloat` compares variant tags
structurally on the payload-free variants, so `Nan == Nan` holds and
`category NaN = Nan` can be checked by direct value equality (while raw
IEEE equality on the NaN payload itself would be false). -/
theorem nan_variant_structural_eq :
    CatFloat.catEq CatFloat.nan CatFloat.nan = true ∧
    CatFloat.catEq (F64.category F64.nan) CatFloat.nan = true ∧
    CatFloat.catEq (F64.category (F64.inf true)) CatFloat.infinity = true ∧
    F64.feq F64.nan F64.nan = false := by decide

/-- Claim C10: any fractional payload returned by `category` has magnitude
strictly less than 1. -/
theorem fract_payload_abs_lt_one (v x i f : F64) :
    (F64.category v = CatFloat.fractionLike x → |x.val| < 1) ∧
    (F64.category v = CatFloat.integerAndFractionalPart i f → |f.val| < 1) := by
  constructor
  · intro h
    obtain ⟨q, -, rfl, ht, -⟩ := F64.fractionLike_inv h
    simpa [F64.val] using F64.ratTrunc_eq_zero_iff.mp ht
  · intro h
    obtain ⟨q, -, -, rfl, -, -⟩ := F64.intAndFrac_inv h
    simpa [F64.val] using F64.ratTrunc_fract_bounds q

/-- Witness for C10 at the concrete inputs 0.2 and 1.5. -/
theorem fract_payload_abs_lt_one_witness :
    (F64.category (F64.fin (Rat.divInt 1 5)) =
        CatFloat.fractionLike (F64.fin (Rat.divInt 1 5)) ∧
      |(F64.fin (Rat.divInt 1 5)).val| < 1) ∧
    (F64.category (F64.fin (Rat.divInt 3 2)) =
        CatFloat.integerAndFractionalPart (F64.fin 1) (F64.fin (Rat.divInt 1 2)) ∧
      |(F64.fin (Rat.divInt 1 2)).val| < 1) :=
  ⟨⟨by decide,
      (fract_payload_abs_lt_one (F64.fin (Rat.divInt 1 5)) (F64.fin (Rat.divInt 1 5))
          F64.nan F64.nan).1 (by decide)⟩,
    ⟨by decide,
      (fract_payload_abs_lt_one (F64.fin (Rat.divInt 3 2)) F64.nan (F64.fin 1)
          (F64.fin (Rat.divInt 1 2))).2 (by decide)⟩⟩
